import Mathlib

/-!
Verification of the glenv reconciliation pipeline (dotenv parser, classifier,
scope filter, diff/apply engine, retry-aware transport).

Go strings are modelled as `List Char` (`Str`); Go byte/rune distinctions are
noted where they matter.  Maps are modelled by fold-based lookups that mirror
the insertion order of the Go code.  Concurrency (the apply worker pool) is
modelled by quantifying over an arbitrary permutation of per-task results and
over oracles for cancellation and client-call outcomes.
-/

/-- Strings of the Go program, modelled as lists of characters. -/
abbrev Str := List Char

/-- Converts a Lean string literal to the `Str` model. -/
def gostr (s : String) : Str := s.data

instance {ε α : Type} [DecidableEq ε] [DecidableEq α] : DecidableEq (Except ε α) := fun a b =>
  match a, b with
  | .ok x, .ok y => if h : x = y then isTrue (by rw [h]) else isFalse (by simp [h])
  | .error x, .error y => if h : x = y then isTrue (by rw [h]) else isFalse (by simp [h])
  | .ok _, .error _ => isFalse (by simp)
  | .error _, .ok _ => isFalse (by simp)

/-- Model of Go `strings.Contains s sub`: substring containment. -/
def strContains : Str → Str → Bool
  | [], sub => sub.isEmpty
  | s@(_ :: t), sub => sub.isPrefixOf s || strContains t sub

/-- Model of Go `strings.ToUpper` (ASCII patterns only are used by the code). -/
def strToUpper (s : Str) : Str := s.map Char.toUpper

/-- Model of Go `strings.ToLower` (ASCII patterns only are used by the code). -/
def strToLower (s : Str) : Str := s.map Char.toLower

namespace classifier

/-- Classification holds the result of classifying a GitLab CI/CD variable
(Go `classifier.Classification`). -/
structure Classification where
  masked : Bool := false
  «protected» : Bool := false
  varType : Str := []
deriving DecidableEq

/-- Rules holds user-supplied pattern overrides (Go `classifier.Rules`). -/
structure Rules where
  maskedPatterns : List Str := []
  maskedExclude : List Str := []
  filePatterns : List Str := []
  fileExclude : List Str := []

/-- Classifier classifies variables using merged built-in and user rules
(Go `classifier.Classifier`). -/
structure Classifier where
  maskedPatterns : List Str := []
  maskedExclude : List Str := []
  filePatterns : List Str := []
  fileExclude : List Str := []

def builtinMaskedPatterns : List Str :=
  [gostr "_TOKEN", gostr "SECRET", gostr "PASSWORD", gostr "API_KEY", gostr "DSN"]

def builtinMaskedExclude : List Str :=
  [gostr "MAX_TOKENS", gostr "TIMEOUT", gostr "PORT"]

def builtinFilePatterns : List Str :=
  [gostr "PRIVATE_KEY", gostr "_CERT", gostr "_PEM"]

def builtinFileExclude : List Str :=
  [gostr "_PATH", gostr "_DIR", gostr "_URL"]

/-- Model of Go `classifier.toUpper`: uppercases every pattern in a list. -/
def toUpperAll (ss : List Str) : List Str := ss.map strToUpper

/-- Model of Go `classifier.New`: merges built-in and user rules,
pre-normalizing all patterns to uppercase. -/
def New (userRules : Rules) : Classifier :=
  { maskedPatterns := toUpperAll (builtinMaskedPatterns ++ userRules.maskedPatterns)
    maskedExclude := toUpperAll (builtinMaskedExclude ++ userRules.maskedExclude)
    filePatterns := toUpperAll (builtinFilePatterns ++ userRules.filePatterns)
    fileExclude := toUpperAll (builtinFileExclude ++ userRules.fileExclude) }

/-- Model of Go `classifier.NewEmpty`: a classifier with no patterns at all. -/
def NewEmpty : Classifier := {}

/-- Characters accepted by GitLab for masked values:
`[a-zA-Z0-9_:@\-.+~=/]` (the cases of the `switch` in Go `isMaskable`). -/
def maskableChar (r : Char) : Prop :=
  ('a' ≤ r ∧ r ≤ 'z') ∨ ('A' ≤ r ∧ r ≤ 'Z') ∨ ('0' ≤ r ∧ r ≤ '9') ∨
  r = '_' ∨ r = ':' ∨ r = '@' ∨ r = '-' ∨ r = '+' ∨ r = '.' ∨ r = '~' ∨ r = '=' ∨ r = '/'

instance : DecidablePred maskableChar := fun r => by
  unfold maskableChar; infer_instance

/-- Model of Go `classifier.isMaskable`: value length at least 8 and every
character drawn from the maskable set.  (Go measures `len(value)` in bytes;
for values passing the all-ASCII character check the byte count equals the
character count, and values containing a non-ASCII character fail the
character check in both models, so the two predicates agree.) -/
def isMaskable (value : Str) : Bool :=
  if value.length < 8 then false
  else value.all fun r => decide (maskableChar r)

/-- Model of Go `classifier.matchesMasked`: exclude list first, then patterns. -/
def matchesMasked (c : Classifier) (key : Str) : Bool :=
  let upper := strToUpper key
  if c.maskedExclude.any fun excl => strContains upper excl then false
  else c.maskedPatterns.any fun pat => strContains upper pat

def pemHeader : Str := gostr "-----BEGIN"

/-- Model of Go `classifier.matchesFile`: PEM detection in the value first
(only when file patterns are configured), then exclude list, then patterns. -/
def matchesFile (c : Classifier) (key value : Str) : Bool :=
  if decide (0 < c.filePatterns.length) && strContains value pemHeader then true
  else
    let upper := strToUpper key
    if c.fileExclude.any fun excl => strContains upper excl then false
    else c.filePatterns.any fun pat => strContains upper pat

def varTypeFile : Str := gostr "file"

def varTypeEnvVar : Str := gostr "env_var"

def scopeProduction : Str := gostr "production"

/-- Model of Go `classifier.Classify`: file type wins (never masked, protected
in production); otherwise `env_var`, masked iff the key matches masked rules
and the value is maskable, protected iff production and masked rules match. -/
def Classify (c : Classifier) (key value environment : Str) : Classification :=
  if matchesFile c key value then
    { varType := varTypeFile
      masked := false
      «protected» := environment == scopeProduction }
  else
    { varType := varTypeEnvVar
      masked := matchesMasked c key && isMaskable value
      «protected» := (environment == scopeProduction) && matchesMasked c key }

/-- Spec-side reading of the masked key rules: no exclude pattern occurs in the
uppercased key, and some masked pattern does. -/
def maskedRulesSpec (c : Classifier) (key : Str) : Prop :=
  (∀ excl ∈ c.maskedExclude, ¬ excl <:+: strToUpper key) ∧
  (∃ pat ∈ c.maskedPatterns, pat <:+: strToUpper key)

/-- Spec-side reading of the maskable predicate: length at least 8 and every
character in the alphabet `[-A-Za-z0-9_:@.~+=/]`. -/
def maskableSpec (value : Str) : Prop :=
  8 ≤ value.length ∧ ∀ r ∈ value, maskableChar r

end classifier

namespace envfile

/-- SkipReason describes why a line was skipped during parsing
(Go `envfile.SkipReason`). -/
inductive SkipReason where
  | blank
  | comment
  | placeholder
  | interpolation
deriving DecidableEq

/-- Variable holds a parsed environment variable (Go `envfile.Variable`). -/
structure Variable where
  key : Str := []
  value : Str := []
  line : Nat := 0
deriving DecidableEq

/-- SkippedLine records a line that was intentionally skipped
(Go `envfile.SkippedLine`). -/
structure SkippedLine where
  line : Nat := 0
  key : Str := []
  reason : SkipReason
deriving DecidableEq

/-- ParseResult holds the outcome of parsing a .env file
(Go `envfile.ParseResult`). -/
structure ParseResult where
  «variables» : List Variable := []
  skipped : List SkippedLine := []
deriving DecidableEq

end envfile

namespace gitlab

/-- Variable represents a GitLab CI/CD project variable (Go `gitlab.Variable`). -/
structure Variable where
  key : Str := []
  value : Str := []
  variableType : Str := []
  environmentScope : Str := []
  «protected» : Bool := false
  masked : Bool := false
  raw : Bool := false
deriving DecidableEq

/-- Wildcard environment scope `"*"`. -/
def star : Str := gostr "*"

/-- Model of Go `gitlab.FilterByScope`: client-side scope filtering.
Empty scope returns the input unchanged; scope `"*"` keeps only
wildcard-scoped variables; a specific scope keeps exact matches and
wildcard-scoped variables.  Input order is preserved. -/
def FilterByScope (vars : List Variable) (scope : Str) : List Variable :=
  if scope = [] then vars
  else vars.filter fun v =>
    v.environmentScope == scope || (!(scope == star) && v.environmentScope == star)

end gitlab

namespace sync

/-- Go `sync.ChangeCreate`. -/
def ChangeCreate : Str := gostr "create"

/-- Go `sync.ChangeUpdate`. -/
def ChangeUpdate : Str := gostr "update"

/-- Go `sync.ChangeDelete`. -/
def ChangeDelete : Str := gostr "delete"

/-- Go `sync.ChangeUnchanged`. -/
def ChangeUnchanged : Str := gostr "unchanged"

/-- Go `sync.ChangeSkipped`. -/
def ChangeSkipped : Str := gostr "skipped"

/-- Change describes a single diff entry (Go `sync.Change`).  Field defaults
are the Go zero values. -/
structure Change where
  kind : Str := []
  key : Str := []
  oldValue : Str := []
  newValue : Str := []
  classification : Str := []
  skipReason : Str := []
  varType : Str := []
  masked : Bool := false
  «protected» : Bool := false
  raw : Bool := false
  envScope : Str := []
deriving DecidableEq

/-- Options controls Engine behaviour (Go `sync.Options`). -/
structure Options where
  workers : Nat := 0
  dryRun : Bool := false
  deleteMissing : Bool := false
deriving DecidableEq

/-- Model of Go `sync.buildClassLabel`. -/
def buildClassLabel (cl : classifier.Classification) : Str :=
  let label := cl.varType
  let label := if cl.masked then label ++ gostr ",masked" else label
  if cl.«protected» then label ++ gostr ",protected" else label

/-- Lookup in the Go `remoteMap` built by `Engine.Diff`: iterating the
(filtered) remote list in order, an entry is stored for its key when no entry
is present yet or when the present entry is wildcard-scoped (so an
exact-scope entry wins over a wildcard one).  Restricting the fold to one key
is equivalent to the Go map because entries with other keys never affect the
map slot of `k`. -/
def remoteLookupStep (k : Str) (acc : Option gitlab.Variable) (v : gitlab.Variable) :
    Option gitlab.Variable :=
  if v.key == k then
    match acc with
    | none => some v
    | some existing =>
      if existing.environmentScope == gitlab.star then some v else some existing
  else acc

/-- The fold of `remoteLookupStep` over the remote list in order. -/
def remoteLookup (remote : List gitlab.Variable) (k : Str) : Option gitlab.Variable :=
  remote.foldl (remoteLookupStep k) none

/-- The body of the per-local-entry loop of Go `Engine.Diff` (`remote` is the
already-filtered list): classify, look up the remote record, and emit CREATE
when no scope-matching remote exists, UPDATE when any of value, type, masked,
protected differ, and UNCHANGED otherwise. -/
def diffOne (c : classifier.Classifier) (remote : List gitlab.Variable) (envScope : Str)
    (lv : envfile.Variable) : Change :=
  let cl := classifier.Classify c lv.key lv.value envScope
  let classLabel := buildClassLabel cl
  match remoteLookup remote lv.key with
  | none =>
    { kind := ChangeCreate, key := lv.key, newValue := lv.value,
      classification := classLabel, varType := cl.varType, masked := cl.masked,
      «protected» := cl.«protected», envScope := envScope }
  | some rv =>
    if rv.environmentScope == envScope || rv.environmentScope == gitlab.star then
      if !(rv.value == lv.value) || !(rv.variableType == cl.varType) ||
          !(rv.masked == cl.masked) || !(rv.«protected» == cl.«protected») then
        { kind := ChangeUpdate, key := lv.key, oldValue := rv.value, newValue := lv.value,
          classification := classLabel, varType := cl.varType, masked := cl.masked,
          «protected» := cl.«protected», raw := rv.raw, envScope := rv.environmentScope }
      else
        { kind := ChangeUnchanged, key := lv.key, oldValue := rv.value,
          newValue := lv.value, classification := classLabel,
          envScope := rv.environmentScope }
    else
      { kind := ChangeCreate, key := lv.key, newValue := lv.value,
        classification := classLabel, varType := cl.varType, masked := cl.masked,
        «protected» := cl.«protected», envScope := envScope }

/-- Model of Go `Engine.Diff`: scope-filter the remote list, emit one change
per local entry in file order (`diffOne`), followed by one DELETE per
remote-only key when `deleteMissing` is set. -/
def Diff (c : classifier.Classifier) (opts : Options) (locals : List envfile.Variable)
    (remote : List gitlab.Variable) (envScope : Str) : List Change :=
  let remote := gitlab.FilterByScope remote envScope
  let localChanges := locals.map (diffOne c remote envScope)
  let deletes :=
    if opts.deleteMissing then
      (remote.filter fun rv => !(locals.any fun lv => lv.key == rv.key)).map fun rv =>
        { kind := ChangeDelete, key := rv.key, oldValue := rv.value,
          envScope := rv.environmentScope }
    else []
  localChanges ++ deletes

/-- Errors produced while applying a single change (the Go code wraps client
errors with the operation name and key via `fmt.Errorf`). -/
inductive ApplyErr where
  | ctxCancelled
  | createFailed (key : Str) (msg : Str)
  | updateFailed (key : Str) (msg : Str)
  | deleteFailed (key : Str) (msg : Str)
  | unknownKind (kind : Str)
deriving DecidableEq

/-- Result is produced by a worker after attempting one Change
(Go `sync.Result`). -/
structure Result where
  change : Change
  error : Option ApplyErr := none
deriving DecidableEq

/-- SyncReport summarises the outcome of an Apply run (Go `sync.SyncReport`).
The wall-clock `Duration` field is not modelled. -/
structure SyncReport where
  created : Nat := 0
  updated : Nat := 0
  deleted : Nat := 0
  unchanged : Nat := 0
  skipped : Nat := 0
  failed : Nat := 0
  apiCalls : Nat := 0
  errors : List ApplyErr := []
deriving DecidableEq

/-- Model of Go `Engine.applyOne`: dispatch by change kind; dry-run returns
success without a remote call; client-call outcomes are supplied by the
oracles `createErr`, `updateErr`, `deleteErr` (none = success); an unknown
kind is an error. -/
def applyOne (dryRun : Bool) (createErr updateErr deleteErr : Change → Option Str)
    (task : Change) : Result :=
  if task.kind == ChangeUnchanged || task.kind == ChangeSkipped then { change := task }
  else if task.kind == ChangeCreate then
    if dryRun then { change := task }
    else
      match createErr task with
      | some msg => { change := task, error := some (.createFailed task.key msg) }
      | none => { change := task }
  else if task.kind == ChangeUpdate then
    if dryRun then { change := task }
    else
      match updateErr task with
      | some msg => { change := task, error := some (.updateFailed task.key msg) }
      | none => { change := task }
  else if task.kind == ChangeDelete then
    if dryRun then { change := task }
    else
      match deleteErr task with
      | some msg => { change := task, error := some (.deleteFailed task.key msg) }
      | none => { change := task }
  else { change := task, error := some (.unknownKind task.kind) }

/-- A worker's handling of one task in `ApplyWithCallback`: the cancellation
pre-check emits a context-error result; otherwise the task is applied. -/
def workerRun (dryRun : Bool) (cancelled : Change → Bool)
    (createErr updateErr deleteErr : Change → Option Str) (task : Change) : Result :=
  if cancelled task then { change := task, error := some .ctxCancelled }
  else applyOne dryRun createErr updateErr deleteErr task

/-- One step of the upfront partitioning loop of `ApplyWithCallback`:
UNCHANGED and SKIPPED changes are counted immediately and not enqueued;
everything else is appended, in order, to the actionable task list. -/
def partitionStep (acc : SyncReport × List Change) (ch : Change) : SyncReport × List Change :=
  if ch.kind == ChangeUnchanged then
    ({ acc.1 with unchanged := acc.1.unchanged + 1 }, acc.2)
  else if ch.kind == ChangeSkipped then
    ({ acc.1 with skipped := acc.1.skipped + 1 }, acc.2)
  else (acc.1, acc.2 ++ [ch])

/-- The upfront partitioning loop of `ApplyWithCallback` over the whole
change list. -/
def partitionChanges (changes : List Change) : SyncReport × List Change :=
  changes.foldl partitionStep ({}, [])

/-- One step of the collector loop of `ApplyWithCallback`: a received result
increments `failed` (appending the error) or the success counter of its kind,
counting an API call for non-dry-run successes. -/
def collectStep (dryRun : Bool) (rep : SyncReport) (r : Result) : SyncReport :=
  match r.error with
  | some e => { rep with failed := rep.failed + 1, errors := rep.errors ++ [e] }
  | none =>
    if r.change.kind == ChangeCreate then
      { rep with created := rep.created + 1,
                 apiCalls := rep.apiCalls + if dryRun then 0 else 1 }
    else if r.change.kind == ChangeUpdate then
      { rep with updated := rep.updated + 1,
                 apiCalls := rep.apiCalls + if dryRun then 0 else 1 }
    else if r.change.kind == ChangeDelete then
      { rep with deleted := rep.deleted + 1,
                 apiCalls := rep.apiCalls + if dryRun then 0 else 1 }
    else rep

/-- The collector loop of `ApplyWithCallback` over the received results. -/
def collectResults (dryRun : Bool) (report : SyncReport) (results : List Result) : SyncReport :=
  results.foldl (collectStep dryRun) report

/-- Model of Go `Engine.ApplyWithCallback` (and `Apply`): partition the
change list, then fold the worker results into the report.  The worker pool
delivers results in an arbitrary order, so the model takes the result list as
an argument constrained by `validSchedule`. -/
def ApplyWithCallback (dryRun : Bool) (changes : List Change) (results : List Result) :
    SyncReport :=
  collectResults dryRun (partitionChanges changes).1 results

/-- A result list is a valid schedule when it is some permutation of the
per-task worker results of the actionable changes — exactly what any number
of workers racing on the task channel can produce, with `cancelled` giving
each task's cancellation pre-check outcome and the `*Err` oracles giving the
client-call outcomes. -/
def validSchedule (dryRun : Bool) (cancelled : Change → Bool)
    (createErr updateErr deleteErr : Change → Option Str)
    (changes : List Change) (results : List Result) : Prop :=
  results.Perm
    ((partitionChanges changes).2.map
      (workerRun dryRun cancelled createErr updateErr deleteErr))

/-- Total of the six outcome counters of a report. -/
def reportTotal (r : SyncReport) : Nat :=
  r.created + r.updated + r.deleted + r.unchanged + r.skipped + r.failed

end sync

namespace gitlab

/-- Outcome of one underlying HTTP attempt as observed by `Client.Do`:
either a transport error or a response carrying a status code. -/
inductive Attempt where
  | netErr (msg : Str)
  | resp (status : Nat)
deriving DecidableEq

/-- The last recorded retryable error inside the `Client.Do` loop
(Go `lastErr`). -/
inductive LastErr where
  | net (msg : Str)
  | server (status : Nat)
deriving DecidableEq

/-- The error paths out of `Client.Do` (Go returns `(nil, err)` on each). -/
inductive DoError where
  | authFailed
  | rateLimited (attempts : Nat)
  | serverError (status : Nat) (attempts : Nat)
  | failedAfter (attempts : Nat) (last : Option LastErr)
deriving DecidableEq

/-- Result of `Client.Do`: the outcome (a response status handed to the
caller, or an error), together with how many attempts were issued and how
many backoff sleeps were taken. -/
structure DoResult where
  result : Except DoError Nat
  attempts : Nat
  sleeps : Nat
deriving DecidableEq

/-- The retry loop of Go `Client.Do` (part of `for attempt := 0; attempt <=
retryMax; attempt++`).  `respond n` is the server/network outcome of attempt
`n`; `fuel` counts the remaining loop iterations (`retryMax + 1 - attempt`).
Transport errors record the error, sleep and retry; 401 returns an
authentication error immediately; 429 sleeps and retries until the budget is
exhausted; status ≥ 500 records a server error, sleeps and retries, returning
a server error when the budget is exhausted; anything else is returned to the
caller. -/
def doGo (respond : Nat → Attempt) (retryMax : Nat) :
    Nat → Nat → Option LastErr → Nat → DoResult
  | 0, attempt, lastErr, sleeps =>
    ⟨.error (.failedAfter (retryMax + 1) lastErr), attempt, sleeps⟩
  | fuel + 1, attempt, lastErr, sleeps =>
    match respond attempt with
    | .netErr msg =>
      if attempt < retryMax then
        doGo respond retryMax fuel (attempt + 1) (some (.net msg)) (sleeps + 1)
      else
        doGo respond retryMax fuel (attempt + 1) (some (.net msg)) sleeps
    | .resp status =>
      if status = 401 then ⟨.error .authFailed, attempt + 1, sleeps⟩
      else if status = 429 then
        if attempt < retryMax then doGo respond retryMax fuel (attempt + 1) lastErr (sleeps + 1)
        else ⟨.error (.rateLimited (attempt + 1)), attempt + 1, sleeps⟩
      else if 500 ≤ status then
        if attempt < retryMax then
          doGo respond retryMax fuel (attempt + 1) (some (.server status)) (sleeps + 1)
        else ⟨.error (.serverError status (attempt + 1)), attempt + 1, sleeps⟩
      else ⟨.ok status, attempt + 1, sleeps⟩

/-- Model of Go `Client.Do`: run the retry loop from attempt 0 with no
recorded error.  Rate-limiter waits and context cancellation are not
modelled: the claims under verification concern runs in which the server
responds. -/
def Do (respond : Nat → Attempt) (retryMax : Nat) : DoResult :=
  doGo respond retryMax (retryMax + 1) 0 none 0

/-- Go `maxBackoff = 5 * time.Minute`, in nanoseconds. -/
def maxBackoff : Int := 300 * 1000000000

/-- The exclusive upper bound of the jitter, 500ms in nanoseconds. -/
def jitterBound : Int := 500 * 1000000

/-- Largest value of Go's int64 (`time.Duration` is an int64 nanosecond
count). -/
def int64Max : Int := 2 ^ 63 - 1

/-- Two's-complement wrap-around of signed 64-bit arithmetic, which is what
Go integer overflow produces. -/
def wrap64 (x : Int) : Int := (x + 2 ^ 63) % 2 ^ 64 - 2 ^ 63

/-- Model of Go `Client.backoff`: clamp the attempt to 30, clamp the base to
`maxBackoff`, compute `base·2^attempt + extra` (with 64-bit wrap-around, the
`d < 0` guard catching residual overflow), clamp to `maxBackoff`, add the
jitter, and clamp again.  `jitter` stands for `rand.Int64N(500ms)` and
`extra` is the caller-supplied hint. -/
def backoff (retryInitialBackoff : Int) (attempt : Nat) (jitter extra : Int) : Int :=
  let attempt := if attempt > 30 then 30 else attempt
  let base := retryInitialBackoff
  let exp : Int := 2 ^ attempt
  let base := if base > maxBackoff then maxBackoff else base
  let d := wrap64 (base * exp + extra)
  let d := if d > maxBackoff ∨ d < 0 then maxBackoff else d
  let result := wrap64 (d + jitter)
  if result > maxBackoff then maxBackoff else result

end gitlab

namespace envfile

/-- Go `envfile.placeholderPatterns`. -/
def placeholderPatterns : List Str :=
  [gostr "your_", gostr "change_me", gostr "replace_with_"]

/-- Model of Go `envfile.isPlaceholder`: case-insensitive substring match
against the placeholder patterns. -/
def isPlaceholder (value : Str) : Bool :=
  let lower := strToLower value
  placeholderPatterns.any fun p => strContains lower p

/-- The two-character sequence `$` `{`. -/
def interpolationMark : Str := ['$', '\x7b']

/-- Model of Go `envfile.isInterpolation`: the value contains `$` `{`
anywhere (no escape awareness). -/
def isInterpolation (value : Str) : Bool := strContains value interpolationMark

/-- The scan inside Go `containsUnescapedInterpolation`: `bs` counts the
consecutive backslashes immediately before the current position; a `$` `{`
pair preceded by an even number of backslashes is unescaped. -/
def interpScan : Nat → Str → Bool
  | bs, '$' :: '\x7b' :: rest =>
    if bs % 2 = 0 then true else interpScan 0 ('\x7b' :: rest)
  | bs, '\\' :: rest => interpScan (bs + 1) rest
  | _, _ :: rest => interpScan 0 rest
  | _, [] => false

/-- Model of Go `envfile.containsUnescapedInterpolation`: true when the
string contains a `$` `{` preceded by an even number of backslashes. -/
def containsUnescapedInterpolation (s : Str) : Bool := interpScan 0 s

/-- The scan inside Go `envfile.findUnescapedQuote`: `i` is the current
index, `bs` the count of consecutive preceding backslashes; the first `"`
preceded by an even number of backslashes is returned. -/
def quoteScan : Nat → Nat → Str → Option Nat
  | i, bs, '"' :: rest => if bs % 2 = 0 then some i else quoteScan (i + 1) 0 rest
  | i, bs, '\\' :: rest => quoteScan (i + 1) (bs + 1) rest
  | i, _, _ :: rest => quoteScan (i + 1) 0 rest
  | _, _, [] => none

/-- Model of Go `envfile.findUnescapedQuote`. -/
def findUnescapedQuote (s : Str) : Option Nat := quoteScan 0 0 s

/-- Model of Go `envfile.unescapeDoubleQuoted`, a `strings.NewReplacer` with
the pairs `\\`→`\`, `\"`→`"`, `\$`→`$`, `\n`→newline, `\r`→carriage return,
replacing left to right without overlap. -/
def unescapeDoubleQuoted : Str → Str
  | '\\' :: '\\' :: rest => '\\' :: unescapeDoubleQuoted rest
  | '\\' :: '"' :: rest => '"' :: unescapeDoubleQuoted rest
  | '\\' :: '$' :: rest => '$' :: unescapeDoubleQuoted rest
  | '\\' :: 'n' :: rest => '\n' :: unescapeDoubleQuoted rest
  | '\\' :: 'r' :: rest => '\r' :: unescapeDoubleQuoted rest
  | c :: rest => c :: unescapeDoubleQuoted rest
  | [] => []

/-- Model of Go `strings.TrimSpace` (the inputs of interest are ASCII). -/
def trimSpace (s : Str) : Str :=
  ((s.dropWhile Char.isWhitespace).reverse.dropWhile Char.isWhitespace).reverse

/-- Model of `strings.TrimRight(s, " \t")` applied to the key. -/
def trimRightSpaceTab (s : Str) : Str :=
  (s.reverse.dropWhile fun c => c == ' ' || c == '\t').reverse

/-- The `export ` prefix stripping step of `ParseReader` (strip the prefix,
then trim again). -/
def stripExport (trimmed : Str) : Str :=
  if (gostr "export ").isPrefixOf trimmed then
    trimSpace (trimmed.drop (gostr "export ").length)
  else trimmed

/-- Parse errors of `ParseReader` (Go returns `fmt.Errorf` values; only the
two unterminated-quote shapes matter to the model). -/
inductive ParseError where
  | unterminatedDouble (line : Nat) (key : Str)
  | unterminatedSingle (line : Nat) (key : Str)
deriving DecidableEq

/-- The multiline accumulation loop of `ParseReader`: scan forward for a line
containing an unescaped closing quote, returning the accumulated content
(each scanned line preceded by a newline, the closing line truncated at the
quote) and the number of lines consumed; `none` when the file ends first. -/
def scanClose : List Str → Option (Str × Nat)
  | [] => none
  | ln :: rest =>
    match findUnescapedQuote ln with
    | some idx => some ('\n' :: ln.take idx, 1)
    | none =>
      match scanClose rest with
      | none => none
      | some (content, n) => some ('\n' :: (ln ++ content), n + 1)

/-- Prepend a parsed variable to a parse result. -/
def consVar (v : Variable) (r : ParseResult) : ParseResult :=
  { r with «variables» := v :: r.variables }

/-- Prepend a skipped-line record to a parse result. -/
def consSkip (s : SkippedLine) (r : ParseResult) : ParseResult :=
  { r with skipped := s :: r.skipped }

/-- The common tail of the per-line procedure of `ParseReader`: the
interpolation check on the decoded value (only when the double-quoted path
has not already checked the raw content), then the placeholder check, then
emission of the entry. -/
def finishEntry (key value : Str) (dqProcessed : Bool) (lineNum : Nat)
    (restResult : Except ParseError ParseResult) : Except ParseError ParseResult :=
  if !dqProcessed && isInterpolation value then
    restResult.map (consSkip ⟨lineNum, key, .interpolation⟩)
  else if isPlaceholder value then
    restResult.map (consSkip ⟨lineNum, key, .placeholder⟩)
  else
    restResult.map (consVar ⟨key, value, lineNum⟩)

/-- The per-line loop of Go `envfile.ParseReader`, processing the physical
lines in order (`lineNum` is the 1-indexed number of the first line of the
argument).  Mirrors, in order: trim, `export ` stripping, blank and comment
skips, the `=` requirement, key extraction, and the three value shapes
(double-quoted single-line or multiline, single-quoted, raw).  `fuel` makes
the recursion structural; any `fuel ≥ lines.length` gives the loop's
behaviour because every step consumes at least one line. -/
def parseLines : Nat → List Str → Nat → Except ParseError ParseResult
  | _, [], _ => .ok {}
  | 0, _ :: _, _ => .ok {}
  | fuel + 1, line :: rest, lineNum =>
    let trimmed := stripExport (trimSpace line)
    if trimmed = [] then
      (parseLines fuel rest (lineNum + 1)).map (consSkip ⟨lineNum, [], .blank⟩)
    else if ['#'].isPrefixOf trimmed then
      (parseLines fuel rest (lineNum + 1)).map (consSkip ⟨lineNum, [], .comment⟩)
    else
      match trimmed.findIdx? (fun c => c == '=') with
      | none => parseLines fuel rest (lineNum + 1)
      | some eqIdx =>
        let key := trimRightSpaceTab (trimmed.take eqIdx)
        if key = [] then parseLines fuel rest (lineNum + 1)
        else
          let rawValue := trimmed.drop (eqIdx + 1)
          match rawValue with
          | '"' :: inner =>
            (match findUnescapedQuote inner with
            | some closeIdx =>
              let raw := inner.take closeIdx
              if containsUnescapedInterpolation raw then
                (parseLines fuel rest (lineNum + 1)).map
                  (consSkip ⟨lineNum, key, .interpolation⟩)
              else
                finishEntry key (unescapeDoubleQuoted raw) true lineNum
                  (parseLines fuel rest (lineNum + 1))
            | none =>
              match scanClose rest with
              | none => .error (.unterminatedDouble lineNum key)
              | some (content, n) =>
                let raw := inner ++ content
                if containsUnescapedInterpolation raw then
                  (parseLines fuel (rest.drop n) (lineNum + n + 1)).map
                    (consSkip ⟨lineNum, key, .interpolation⟩)
                else
                  finishEntry key (unescapeDoubleQuoted raw) true (lineNum + n)
                    (parseLines fuel (rest.drop n) (lineNum + n + 1)))
          | '\'' :: inner =>
            (match inner.findIdx? (fun c => c == '\'') with
            | some closeIdx =>
              finishEntry key (inner.take closeIdx) false lineNum
                (parseLines fuel rest (lineNum + 1))
            | none => .error (.unterminatedSingle lineNum key))
          | _ =>
            finishEntry key rawValue false lineNum (parseLines fuel rest (lineNum + 1))

/-- The deduplication loop at the end of `ParseReader`: `deduped` plays the
role of the Go output slice and the `findIdx?` lookup plays the role of the
`seen` index map (the keys of `deduped` are pairwise distinct, so the first
index with a matching key is exactly the remembered index). -/
def dedupGo : List Variable → List Variable → List Variable
  | [], deduped => deduped
  | v :: rest, deduped =>
    match deduped.findIdx? (fun w => w.key == v.key) with
    | some idx => dedupGo rest (deduped.set idx v)
    | none => dedupGo rest (deduped ++ [v])

/-- Model of the last-occurrence-wins deduplication of `ParseReader`. -/
def dedupVariables (vs : List Variable) : List Variable := dedupGo vs []

/-- Model of Go `envfile.ParseReader` on the stream's physical lines: run the
per-line loop from line 1, then deduplicate the variables. -/
def ParseReader (lines : List Str) : Except ParseError ParseResult :=
  (parseLines lines.length lines 1).map fun r =>
    { r with «variables» := dedupVariables r.variables }

/-- Spec-side order of first occurrences: keep each key the first time it is
seen (`seen` carries the keys already emitted). -/
def firstKeysAux : List Str → List Str → List Str
  | _, [] => []
  | seen, k :: ks =>
    if k ∈ seen then firstKeysAux seen ks else k :: firstKeysAux (seen ++ [k]) ks

/-- Spec-side list of distinct keys in order of first occurrence. -/
def firstKeys (ks : List Str) : List Str := firstKeysAux [] ks

end envfile

/-!
Theorems.  Helper lemmas come first, then one theorem per claim (with a
closed witness for every theorem that carries hypotheses).
-/

theorem isPrefixOf_iff_leading (l₁ l₂ : Str) : l₁.isPrefixOf l₂ = true ↔ l₁ <+: l₂ := by
  induction l₁ generalizing l₂ with
  | nil => simp [List.isPrefixOf]
  | cons a t ih =>
    cases l₂ with
    | nil => simp [List.isPrefixOf]
    | cons b u =>
      simp [List.isPrefixOf, List.cons_prefix_cons, ih, beq_iff_eq, And.comm]

theorem strContains_iff (s sub : Str) : strContains s sub = true ↔ sub <:+: s := by
  induction s with
  | nil =>
    rw [strContains]
    simp [List.isEmpty_iff]
  | cons a t ih =>
    rw [strContains]
    rw [Bool.or_eq_true, isPrefixOf_iff_leading, ih, List.infix_cons_iff]

namespace classifier

theorem matchesMasked_iff (c : Classifier) (key : Str) :
    matchesMasked c key = true ↔ maskedRulesSpec c key := by
  unfold matchesMasked maskedRulesSpec
  dsimp only
  split
  · next hex =>
    rw [List.any_eq_true] at hex
    obtain ⟨excl, hmem, hc⟩ := hex
    simp only [Bool.false_eq_true, false_iff, not_and]
    intro hall
    exact absurd ((strContains_iff _ _).mp hc) (hall excl hmem)
  · next hex =>
    rw [List.any_eq_true] at hex
    push_neg at hex
    rw [List.any_eq_true]
    constructor
    · rintro ⟨pat, hmem, hc⟩
      refine ⟨fun excl hmem' hinf => ?_, pat, hmem, (strContains_iff _ _).mp hc⟩
      exact hex excl hmem' ((strContains_iff _ _).mpr hinf)
    · rintro ⟨_, pat, hmem, hinf⟩
      exact ⟨pat, hmem, (strContains_iff _ _).mpr hinf⟩

theorem isMaskable_iff (value : Str) :
    isMaskable value = true ↔ maskableSpec value := by
  unfold isMaskable maskableSpec
  split
  · next h =>
    simp only [Bool.false_eq_true, false_iff, not_and]
    intro h8
    omega
  · next h =>
    simp only [List.all_eq_true, decide_eq_true_iff]
    constructor
    · exact fun hall => ⟨by omega, hall⟩
    · exact fun ⟨_, hall⟩ => hall

end classifier

/-- C8: for every classifier, key, value and scope, when the entry is not
file-classified, `Classify` returns `masked = true` iff the key matches the
masked rules (exclude patterns checked first and winning) and the value is
maskable (length at least 8 and every character in `[A-Za-z0-9_:@.~+=/]` or
`-`). -/
theorem classify_masked_characterization (c : classifier.Classifier) (key value scope : Str)
    (hfile : classifier.matchesFile c key value = false) :
    (classifier.Classify c key value scope).masked = true ↔
      classifier.maskedRulesSpec c key ∧ classifier.maskableSpec value := by
  unfold classifier.Classify
  rw [hfile]
  simp only [Bool.false_eq_true, if_false, Bool.and_eq_true,
    classifier.matchesMasked_iff, classifier.isMaskable_iff]

/-- Witness for C8: with the default rules, `API_KEY` with a long maskable
value is masked (the hypotheses are discharged at this concrete input). -/
theorem classify_masked_characterization_witness :
    classifier.matchesFile (classifier.New {}) (gostr "API_KEY")
        (gostr "longsecretvalue123") = false ∧
    (classifier.Classify (classifier.New {}) (gostr "API_KEY")
        (gostr "longsecretvalue123") (gostr "staging")).masked = true :=
  ⟨by decide,
    (classify_masked_characterization (classifier.New {}) (gostr "API_KEY")
      (gostr "longsecretvalue123") (gostr "staging") (by decide)).mpr
      ⟨(classifier.matchesMasked_iff _ _).mp (by decide),
       (classifier.isMaskable_iff _).mp (by decide)⟩⟩

/-- C10: for every classifier with configured file patterns, every key, value
containing `-----BEGIN`, and scope, `Classify` returns type `file` — for any
key whatsoever, so a key matching a file-exclude pattern such as `_PATH`
cannot override the value-based PEM detection. -/
theorem classify_pem_value_forces_file (c : classifier.Classifier) (key value scope : Str)
    (hpat : c.filePatterns ≠ [])
    (hpem : strContains value classifier.pemHeader = true) :
    (classifier.Classify c key value scope).varType = classifier.varTypeFile := by
  have hfile : classifier.matchesFile c key value = true := by
    unfold classifier.matchesFile
    have hlen : 0 < c.filePatterns.length := List.length_pos.mpr hpat
    simp [hlen, hpem]
  simp [classifier.Classify, hfile]

/-- Witness for C10: with the default rules, the key `CERT_PATH` matches the
file-exclude pattern `_PATH`, yet a PEM-bearing value is classified as a
file. -/
theorem classify_pem_value_forces_file_witness :
    strContains (strToUpper (gostr "CERT_PATH")) (gostr "_PATH") = true ∧
    (classifier.Classify (classifier.New {}) (gostr "CERT_PATH")
        (gostr "-----BEGIN CERTIFICATE-----") (gostr "staging")).varType =
      classifier.varTypeFile :=
  ⟨by decide,
    classify_pem_value_forces_file (classifier.New {}) (gostr "CERT_PATH")
      (gostr "-----BEGIN CERTIFICATE-----") (gostr "staging") (by decide) (by decide)⟩

namespace sync

theorem foldl_remoteLookupStep_mem (k : Str) (l : List gitlab.Variable) :
    ∀ (acc : Option gitlab.Variable) (v : gitlab.Variable),
      l.foldl (remoteLookupStep k) acc = some v → (v ∈ l ∧ v.key = k) ∨ acc = some v := by
  induction l with
  | nil => exact fun acc v h => Or.inr h
  | cons a t ih =>
    intro acc v h
    rw [List.foldl_cons] at h
    rcases ih _ v h with ⟨hm, hk⟩ | hacc
    · exact Or.inl ⟨List.mem_cons_of_mem a hm, hk⟩
    · unfold remoteLookupStep at hacc
      by_cases hk : (a.key == k) = true
      · rw [if_pos hk] at hacc
        cases acc with
        | none =>
          cases hacc
          exact Or.inl ⟨List.mem_cons_self a t, beq_iff_eq.mp hk⟩
        | some existing =>
          dsimp only at hacc
          by_cases hs : (existing.environmentScope == gitlab.star) = true
          · rw [if_pos hs] at hacc
            cases hacc
            exact Or.inl ⟨List.mem_cons_self a t, beq_iff_eq.mp hk⟩
          · rw [if_neg hs] at hacc
            exact Or.inr hacc
      · rw [if_neg hk] at hacc
        exact Or.inr hacc

theorem remoteLookup_mem {remote : List gitlab.Variable} {k : Str} {v : gitlab.Variable}
    (h : remoteLookup remote k = some v) : v ∈ remote ∧ v.key = k := by
  rcases foldl_remoteLookupStep_mem k remote none v h with h' | h'
  · exact h'
  · cases h'

theorem foldl_remoteLookupStep_filter (k : Str) (l : List gitlab.Variable) :
    ∀ acc, l.foldl (remoteLookupStep k) acc =
      (l.filter fun r => r.key == k).foldl (remoteLookupStep k) acc := by
  induction l with
  | nil => intro acc; rfl
  | cons a t ih =>
    intro acc
    rw [List.foldl_cons, List.filter_cons]
    cases hk : (a.key == k) with
    | false =>
      have hstep : remoteLookupStep k acc a = acc := by
        simp [remoteLookupStep, hk]
      rw [hstep]
      simp only [Bool.false_eq_true, if_false]
      exact ih acc
    | true =>
      simp only [if_true]
      rw [List.foldl_cons]
      exact ih (remoteLookupStep k acc a)

theorem remoteLookup_of_filter_single {remote : List gitlab.Variable} {k : Str}
    {rv : gitlab.Variable} (h : remote.filter (fun r => r.key == k) = [rv]) :
    remoteLookup remote k = some rv := by
  have hkey : (rv.key == k) = true := by
    have : rv ∈ remote.filter (fun r => r.key == k) := by rw [h]; exact List.mem_singleton.mpr rfl
    exact (List.mem_filter.mp this).2
  rw [remoteLookup, foldl_remoteLookupStep_filter, h]
  simp only [List.foldl_cons, List.foldl_nil, remoteLookupStep, hkey, if_true]

theorem FilterByScope_subset {vars : List gitlab.Variable} {scope : Str}
    {v : gitlab.Variable} (h : v ∈ gitlab.FilterByScope vars scope) : v ∈ vars := by
  unfold gitlab.FilterByScope at h
  split at h
  · exact h
  · exact (List.mem_filter.mp h).1

theorem diffOne_key (c : classifier.Classifier) (remote : List gitlab.Variable)
    (envScope : Str) (lv : envfile.Variable) :
    (diffOne c remote envScope lv).key = lv.key := by
  unfold diffOne
  cases h : remoteLookup remote lv.key with
  | none => rfl
  | some rv =>
    dsimp only
    split
    · split <;> rfl
    · rfl

theorem diff_locals_filter (c : classifier.Classifier) (filtered : List gitlab.Variable)
    (envScope : Str) (locals : List envfile.Variable) (lv : envfile.Variable)
    (hmem : lv ∈ locals)
    (huniq : (locals.filter fun l => l.key == lv.key).length = 1) :
    (locals.map (diffOne c filtered envScope)).filter (fun ch => ch.key == lv.key) =
      [diffOne c filtered envScope lv] := by
  rw [List.filter_map]
  have hcomp : ((fun ch : Change => ch.key == lv.key) ∘ diffOne c filtered envScope) =
      fun l' : envfile.Variable => l'.key == lv.key := by
    funext l'
    simp [Function.comp, diffOne_key]
  rw [hcomp]
  have hmemf : lv ∈ locals.filter fun l' => l'.key == lv.key :=
    List.mem_filter.mpr ⟨hmem, by simp⟩
  rcases List.length_eq_one.mp huniq with ⟨a, ha⟩
  rw [ha] at hmemf ⊢
  rw [List.mem_singleton.mp hmemf]
  rfl

theorem diff_deletes_filter (filtered : List gitlab.Variable)
    (locals : List envfile.Variable) (lv : envfile.Variable) (hmem : lv ∈ locals) :
    ((filtered.filter fun rv => !(locals.any fun l => l.key == rv.key)).map
      fun rv => ({ kind := ChangeDelete, key := rv.key, oldValue := rv.value,
                   envScope := rv.environmentScope } : Change)).filter
      (fun ch => ch.key == lv.key) = [] := by
  rw [List.filter_eq_nil_iff]
  intro ch hch
  rcases List.mem_map.mp hch with ⟨rv, hrv, rfl⟩
  have hany : (locals.any fun l => l.key == rv.key) = false := by
    have := (List.mem_filter.mp hrv).2
    simp only [Bool.not_eq_eq_eq_not, Bool.not_true] at this
    exact this
  have hne : (lv.key == rv.key) = false := by
    rw [List.any_eq_false] at hany
    simpa using hany lv hmem
  have hne' : ¬ lv.key = rv.key := fun h => by simp [h] at hne
  simp only [beq_iff_eq]
  exact fun hcontra => hne' hcontra.symm

theorem diff_filter_key (c : classifier.Classifier) (opts : Options)
    (locals : List envfile.Variable) (remote : List gitlab.Variable) (envScope : Str)
    (lv : envfile.Variable) (hmem : lv ∈ locals)
    (huniq : (locals.filter fun l => l.key == lv.key).length = 1) :
    (Diff c opts locals remote envScope).filter (fun ch => ch.key == lv.key) =
      [diffOne c (gitlab.FilterByScope remote envScope) envScope lv] := by
  unfold Diff
  dsimp only
  rw [List.filter_append, diff_locals_filter c _ envScope locals lv hmem huniq]
  cases hdm : opts.deleteMissing
  · simp
  · simp only [if_true]
    rw [diff_deletes_filter _ locals lv hmem]
    exact List.append_nil _

end sync

/-- C1: for every local entry whose key only matches remote records with a
specific scope different from the target scope (and not the wildcard `*`),
`Engine.Diff` emits exactly one CREATE change for that key, carrying the
local value, the computed classification, and the target scope — never an
UPDATE against the differently-scoped remote record. -/
theorem diff_scope_mismatch_creates (c : classifier.Classifier) (opts : sync.Options)
    (locals : List envfile.Variable) (remote : List gitlab.Variable) (envScope : Str)
    (lv : envfile.Variable) (hmem : lv ∈ locals)
    (huniq : (locals.filter fun l => l.key == lv.key).length = 1)
    (hscope : ∀ r ∈ remote, r.key = lv.key →
      r.environmentScope ≠ envScope ∧ r.environmentScope ≠ gitlab.star) :
    (sync.Diff c opts locals remote envScope).filter (fun ch => ch.key == lv.key) =
      [{ kind := sync.ChangeCreate, key := lv.key, newValue := lv.value,
         classification := sync.buildClassLabel (classifier.Classify c lv.key lv.value envScope),
         varType := (classifier.Classify c lv.key lv.value envScope).varType,
         masked := (classifier.Classify c lv.key lv.value envScope).masked,
         «protected» := (classifier.Classify c lv.key lv.value envScope).«protected»,
         envScope := envScope }] := by
  rw [sync.diff_filter_key c opts locals remote envScope lv hmem huniq]
  congr 1
  unfold sync.diffOne
  cases hlk : sync.remoteLookup (gitlab.FilterByScope remote envScope) lv.key with
  | none => rfl
  | some rv =>
    obtain ⟨hrvmem, hrvkey⟩ := sync.remoteLookup_mem hlk
    obtain ⟨hs1, hs2⟩ := hscope rv (sync.FilterByScope_subset hrvmem) hrvkey
    have hcond : (rv.environmentScope == envScope || rv.environmentScope == gitlab.star) =
        false := by
      simp [hs1, hs2]
    dsimp only
    rw [hcond]
    simp

/-- Witness for C1: one local entry `A=new`, one remote record for `A` at
scope `staging`, target scope `production`: the diff is exactly one CREATE at
the target scope. -/
theorem diff_scope_mismatch_creates_witness :
    (sync.Diff (classifier.New {}) {} [{ key := gostr "A", value := gostr "new" }]
      [{ key := gostr "A", value := gostr "old", variableType := gostr "env_var",
         environmentScope := gostr "staging" }] (gostr "production")).filter
      (fun ch => ch.key == gostr "A") =
      [{ kind := sync.ChangeCreate, key := gostr "A", newValue := gostr "new",
         classification := sync.buildClassLabel (classifier.Classify (classifier.New {})
           (gostr "A") (gostr "new") (gostr "production")),
         varType := (classifier.Classify (classifier.New {}) (gostr "A") (gostr "new")
           (gostr "production")).varType,
         masked := (classifier.Classify (classifier.New {}) (gostr "A") (gostr "new")
           (gostr "production")).masked,
         «protected» := (classifier.Classify (classifier.New {}) (gostr "A") (gostr "new")
           (gostr "production")).«protected»,
         envScope := gostr "production" }] :=
  diff_scope_mismatch_creates (classifier.New {}) {}
    [{ key := gostr "A", value := gostr "new" }]
    [{ key := gostr "A", value := gostr "old", variableType := gostr "env_var",
       environmentScope := gostr "staging" }] (gostr "production")
    { key := gostr "A", value := gostr "new" } (by decide) (by decide) (by decide)

/-- C2: for every local entry whose key matches exactly one remote record,
that record being wildcard-scoped, `Engine.Diff` emits exactly one UNCHANGED
change when value, type, masked and protected all match the classification,
and otherwise exactly one UPDATE change with `oldValue` the remote value,
`newValue` the local value, and scope `*` — the remote record's actual scope,
so the subsequent PUT addresses the wildcard record. -/
theorem diff_wildcard_unchanged_or_update (c : classifier.Classifier) (opts : sync.Options)
    (locals : List envfile.Variable) (remote : List gitlab.Variable) (envScope : Str)
    (lv : envfile.Variable) (rv : gitlab.Variable)
    (hmem : lv ∈ locals)
    (huniq : (locals.filter fun l => l.key == lv.key).length = 1)
    (hrem : remote.filter (fun r => r.key == lv.key) = [rv])
    (hstar : rv.environmentScope = gitlab.star) :
    ((rv.value = lv.value ∧
        rv.variableType = (classifier.Classify c lv.key lv.value envScope).varType ∧
        rv.masked = (classifier.Classify c lv.key lv.value envScope).masked ∧
        rv.«protected» = (classifier.Classify c lv.key lv.value envScope).«protected») →
      (sync.Diff c opts locals remote envScope).filter (fun ch => ch.key == lv.key) =
        [{ kind := sync.ChangeUnchanged, key := lv.key, oldValue := rv.value,
           newValue := lv.value,
           classification := sync.buildClassLabel (classifier.Classify c lv.key lv.value envScope),
           envScope := gitlab.star }]) ∧
    (¬(rv.value = lv.value ∧
        rv.variableType = (classifier.Classify c lv.key lv.value envScope).varType ∧
        rv.masked = (classifier.Classify c lv.key lv.value envScope).masked ∧
        rv.«protected» = (classifier.Classify c lv.key lv.value envScope).«protected») →
      (sync.Diff c opts locals remote envScope).filter (fun ch => ch.key == lv.key) =
        [{ kind := sync.ChangeUpdate, key := lv.key, oldValue := rv.value,
           newValue := lv.value,
           classification := sync.buildClassLabel (classifier.Classify c lv.key lv.value envScope),
           varType := (classifier.Classify c lv.key lv.value envScope).varType,
           masked := (classifier.Classify c lv.key lv.value envScope).masked,
           «protected» := (classifier.Classify c lv.key lv.value envScope).«protected»,
           raw := rv.raw, envScope := gitlab.star }]) := by
  have hfl : (gitlab.FilterByScope remote envScope).filter (fun r => r.key == lv.key) = [rv] := by
    unfold gitlab.FilterByScope
    split
    · exact hrem
    · rw [List.filter_comm, hrem, List.filter_cons]
      have hp : (rv.environmentScope == envScope ||
          (!(envScope == gitlab.star) && rv.environmentScope == gitlab.star)) = true := by
        by_cases h : envScope = gitlab.star
        · simp [hstar, h]
        · simp [hstar, h]
      rw [hp]
      simp
  have hlk : sync.remoteLookup (gitlab.FilterByScope remote envScope) lv.key = some rv :=
    sync.remoteLookup_of_filter_single hfl
  have hfk := sync.diff_filter_key c opts locals remote envScope lv hmem huniq
  have hsm : (rv.environmentScope == envScope || rv.environmentScope == gitlab.star) =
      true := by
    simp [hstar]
  constructor
  · intro hcls
    rw [hfk]
    congr 1
    unfold sync.diffOne
    rw [hlk]
    dsimp only
    rw [hsm]
    have hdif : (!(rv.value == lv.value) ||
        !(rv.variableType == (classifier.Classify c lv.key lv.value envScope).varType) ||
        !(rv.masked == (classifier.Classify c lv.key lv.value envScope).masked) ||
        !(rv.«protected» == (classifier.Classify c lv.key lv.value envScope).«protected»)) =
        false := by
      simp [hcls.1, hcls.2.1, hcls.2.2.1, hcls.2.2.2]
    rw [hdif]
    simp [hstar]
  · intro hcls
    rw [hfk]
    congr 1
    unfold sync.diffOne
    rw [hlk]
    dsimp only
    rw [hsm]
    have hdif : (!(rv.value == lv.value) ||
        !(rv.variableType == (classifier.Classify c lv.key lv.value envScope).varType) ||
        !(rv.masked == (classifier.Classify c lv.key lv.value envScope).masked) ||
        !(rv.«protected» == (classifier.Classify c lv.key lv.value envScope).«protected»)) =
        true := by
      cases hb : (!(rv.value == lv.value) ||
        !(rv.variableType == (classifier.Classify c lv.key lv.value envScope).varType) ||
        !(rv.masked == (classifier.Classify c lv.key lv.value envScope).masked) ||
        !(rv.«protected» == (classifier.Classify c lv.key lv.value envScope).«protected»)) with
      | true => rfl
      | false =>
        exfalso
        apply hcls
        simp only [Bool.or_eq_false_iff, Bool.not_eq_false'] at hb
        obtain ⟨⟨⟨h1, h2⟩, h3⟩, h4⟩ := hb
        exact ⟨beq_iff_eq.mp h1, beq_iff_eq.mp h2, beq_iff_eq.mp h3, beq_iff_eq.mp h4⟩
    rw [hdif]
    simp [hstar]

/-- Witness for C2 (the UPDATE side, spec end-to-end scenario 3): local
`A=new`, remote `{A, old, *}`, target `production` — exactly one UPDATE with
`oldValue = old`, `newValue = new`, scope `*`. -/
theorem diff_wildcard_unchanged_or_update_witness :
    (sync.Diff (classifier.New {}) {} [{ key := gostr "A", value := gostr "new" }]
      [{ key := gostr "A", value := gostr "old", variableType := gostr "env_var",
         environmentScope := gostr "*" }] (gostr "production")).filter
      (fun ch => ch.key == gostr "A") =
      [{ kind := sync.ChangeUpdate, key := gostr "A", oldValue := gostr "old",
         newValue := gostr "new",
         classification := sync.buildClassLabel (classifier.Classify (classifier.New {})
           (gostr "A") (gostr "new") (gostr "production")),
         varType := (classifier.Classify (classifier.New {}) (gostr "A") (gostr "new")
           (gostr "production")).varType,
         masked := (classifier.Classify (classifier.New {}) (gostr "A") (gostr "new")
           (gostr "production")).masked,
         «protected» := (classifier.Classify (classifier.New {}) (gostr "A") (gostr "new")
           (gostr "production")).«protected»,
         raw := false, envScope := gitlab.star }] :=
  (diff_wildcard_unchanged_or_update (classifier.New {}) {}
    [{ key := gostr "A", value := gostr "new" }]
    [{ key := gostr "A", value := gostr "old", variableType := gostr "env_var",
       environmentScope := gostr "*" }] (gostr "production")
    { key := gostr "A", value := gostr "new" }
    { key := gostr "A", value := gostr "old", variableType := gostr "env_var",
      environmentScope := gostr "*" }
    (by decide) (by decide) (by decide) (by decide)).2 (by decide)

namespace sync

theorem partition_foldl_spec (l : List Change) :
    ∀ acc : SyncReport × List Change,
      (l.foldl partitionStep acc).1.created = acc.1.created ∧
      (l.foldl partitionStep acc).1.updated = acc.1.updated ∧
      (l.foldl partitionStep acc).1.deleted = acc.1.deleted ∧
      (l.foldl partitionStep acc).1.failed = acc.1.failed ∧
      (l.foldl partitionStep acc).1.unchanged + (l.foldl partitionStep acc).1.skipped +
        (l.foldl partitionStep acc).2.length =
        acc.1.unchanged + acc.1.skipped + acc.2.length + l.length := by
  induction l with
  | nil =>
    intro acc
    exact ⟨rfl, rfl, rfl, rfl, by simp⟩
  | cons ch t ih =>
    intro acc
    rw [List.foldl_cons]
    obtain ⟨h1, h2, h3, h4, h5⟩ := ih (partitionStep acc ch)
    have hstep : (partitionStep acc ch).1.created = acc.1.created ∧
        (partitionStep acc ch).1.updated = acc.1.updated ∧
        (partitionStep acc ch).1.deleted = acc.1.deleted ∧
        (partitionStep acc ch).1.failed = acc.1.failed ∧
        (partitionStep acc ch).1.unchanged + (partitionStep acc ch).1.skipped +
          (partitionStep acc ch).2.length =
          acc.1.unchanged + acc.1.skipped + acc.2.length + 1 := by
      unfold partitionStep
      split
      · exact ⟨rfl, rfl, rfl, rfl, by simp; omega⟩
      · split
        · exact ⟨rfl, rfl, rfl, rfl, by simp; omega⟩
        · exact ⟨rfl, rfl, rfl, rfl, by simp; omega⟩
    obtain ⟨g1, g2, g3, g4, g5⟩ := hstep
    refine ⟨h1.trans g1, h2.trans g2, h3.trans g3, h4.trans g4, ?_⟩
    rw [h5, g5]
    simp [List.length_cons]
    omega

theorem partition_actionable_kinds (l : List Change) :
    ∀ acc : SyncReport × List Change, ∀ ch ∈ (l.foldl partitionStep acc).2,
      ch ∈ acc.2 ∨
      ((ch.kind == ChangeUnchanged) = false ∧ (ch.kind == ChangeSkipped) = false) := by
  induction l with
  | nil => exact fun acc ch h => Or.inl h
  | cons a t ih =>
    intro acc ch h
    rw [List.foldl_cons] at h
    rcases ih (partitionStep acc a) ch h with hmem | hk
    · unfold partitionStep at hmem
      by_cases hu : (a.kind == ChangeUnchanged) = true
      · rw [if_pos hu] at hmem
        exact Or.inl hmem
      · rw [if_neg hu] at hmem
        by_cases hs : (a.kind == ChangeSkipped) = true
        · rw [if_pos hs] at hmem
          exact Or.inl hmem
        · rw [if_neg hs] at hmem
          rcases List.mem_append.mp hmem with h' | h'
          · exact Or.inl h'
          · rw [List.mem_singleton.mp h']
            exact Or.inr ⟨Bool.not_eq_true _ ▸ hu, Bool.not_eq_true _ ▸ hs⟩
    · exact Or.inr hk

theorem collect_total (dryRun : Bool) (results : List Result) :
    ∀ rep : SyncReport,
      (∀ r ∈ results, r.error = none →
        ((r.change.kind == ChangeCreate) || (r.change.kind == ChangeUpdate) ||
          (r.change.kind == ChangeDelete)) = true) →
      reportTotal (collectResults dryRun rep results) = reportTotal rep + results.length := by
  induction results with
  | nil =>
    intro rep _
    simp [collectResults, reportTotal]
  | cons r t ih =>
    intro rep hall
    have hstep : reportTotal (collectStep dryRun rep r) = reportTotal rep + 1 := by
      unfold collectStep
      cases herr : r.error with
      | some e => simp [reportTotal]; omega
      | none =>
        have hk := hall r (List.mem_cons_self r t) herr
        dsimp only
        by_cases hc : (r.change.kind == ChangeCreate) = true
        · rw [if_pos hc]; simp [reportTotal]; omega
        · rw [if_neg hc]
          by_cases hu : (r.change.kind == ChangeUpdate) = true
          · rw [if_pos hu]; simp [reportTotal]; omega
          · rw [if_neg hu]
            by_cases hd : (r.change.kind == ChangeDelete) = true
            · rw [if_pos hd]; simp [reportTotal]; omega
            · exfalso
              rw [Bool.not_eq_true] at hc hu hd
              rw [hc, hu, hd] at hk
              simp at hk
    have ht := ih (collectStep dryRun rep r) fun r' hr' => hall r' (List.mem_cons_of_mem r hr')
    rw [collectResults, List.foldl_cons] at *
    rw [ht, hstep, List.length_cons]
    omega

theorem workerRun_spec (dryRun : Bool) (cancelled : Change → Bool)
    (createErr updateErr deleteErr : Change → Option Str) (task : Change)
    (h1 : (task.kind == ChangeUnchanged) = false)
    (h2 : (task.kind == ChangeSkipped) = false) :
    (workerRun dryRun cancelled createErr updateErr deleteErr task).change = task ∧
    ((workerRun dryRun cancelled createErr updateErr deleteErr task).error = none →
      ((task.kind == ChangeCreate) || (task.kind == ChangeUpdate) ||
        (task.kind == ChangeDelete)) = true) := by
  unfold workerRun applyOne
  by_cases hc : cancelled task = true
  · rw [if_pos hc]
    exact ⟨rfl, by intro h; cases h⟩
  · rw [if_neg hc]
    rw [h1, h2]
    simp only [Bool.or_self, Bool.false_eq_true, if_false]
    by_cases hcr : (task.kind == ChangeCreate) = true
    · rw [if_pos hcr]
      constructor
      · split
        · rfl
        · cases createErr task <;> rfl
      · intro _
        simp [hcr]
    · rw [if_neg hcr]
      by_cases hup : (task.kind == ChangeUpdate) = true
      · rw [if_pos hup]
        constructor
        · split
          · rfl
          · cases updateErr task <;> rfl
        · intro _
          simp [hup]
      · rw [if_neg hup]
        by_cases hde : (task.kind == ChangeDelete) = true
        · rw [if_pos hde]
          constructor
          · split
            · rfl
            · cases deleteErr task <;> rfl
          · intro _
            simp [hde]
        · rw [if_neg hde]
          exact ⟨rfl, by intro h; cases h⟩

end sync

/-- C3: for every change list and every run of `Apply` / `ApplyWithCallback`
— any worker count, dry-run or not, with or without cancellation, any
client-call outcomes, results collected in any order — the returned report
satisfies created + updated + deleted + unchanged + skipped + failed = the
number of changes in the input change list. -/
theorem apply_report_counts_total (dryRun : Bool) (cancelled : sync.Change → Bool)
    (createErr updateErr deleteErr : sync.Change → Option Str)
    (changes : List sync.Change) (results : List sync.Result)
    (hsched : sync.validSchedule dryRun cancelled createErr updateErr deleteErr changes results) :
    (sync.ApplyWithCallback dryRun changes results).created +
      (sync.ApplyWithCallback dryRun changes results).updated +
      (sync.ApplyWithCallback dryRun changes results).deleted +
      (sync.ApplyWithCallback dryRun changes results).unchanged +
      (sync.ApplyWithCallback dryRun changes results).skipped +
      (sync.ApplyWithCallback dryRun changes results).failed = changes.length := by
  unfold sync.validSchedule at hsched
  have hlen : results.length = (sync.partitionChanges changes).2.length := by
    rw [hsched.length_eq, List.length_map]
  have hok : ∀ r ∈ results, r.error = none →
      ((r.change.kind == sync.ChangeCreate) || (r.change.kind == sync.ChangeUpdate) ||
        (r.change.kind == sync.ChangeDelete)) = true := by
    intro r hr herr
    have hr' := hsched.mem_iff.mp hr
    rcases List.mem_map.mp hr' with ⟨task, htask, rfl⟩
    have hkinds := sync.partition_actionable_kinds changes ({}, []) task htask
    rcases hkinds with hmem | ⟨hk1, hk2⟩
    · cases hmem
    · obtain ⟨hch, himp⟩ :=
        sync.workerRun_spec dryRun cancelled createErr updateErr deleteErr task hk1 hk2
      rw [hch]
      exact himp herr
  have hcol := sync.collect_total dryRun results (sync.partitionChanges changes).1 hok
  unfold sync.ApplyWithCallback
  obtain ⟨p1, p2, p3, p4, p5⟩ := sync.partition_foldl_spec changes ({}, [])
  have hpart : sync.partitionChanges changes = changes.foldl sync.partitionStep ({}, []) := rfl
  rw [← hpart] at p1 p2 p3 p4 p5
  simp at p1 p2 p3 p4 p5
  simp only [sync.reportTotal] at hcol
  rw [hlen] at hcol
  omega

/-- Witness for C3: a two-change list (one CREATE, one UNCHANGED) with a
single-worker in-order schedule and no failures sums to 2. -/
theorem apply_report_counts_total_witness :
    (sync.ApplyWithCallback false
        [{ kind := sync.ChangeCreate, key := gostr "A" },
         { kind := sync.ChangeUnchanged, key := gostr "B" }]
        [{ change := { kind := sync.ChangeCreate, key := gostr "A" } }]).created +
      (sync.ApplyWithCallback false
        [{ kind := sync.ChangeCreate, key := gostr "A" },
         { kind := sync.ChangeUnchanged, key := gostr "B" }]
        [{ change := { kind := sync.ChangeCreate, key := gostr "A" } }]).updated +
      (sync.ApplyWithCallback false
        [{ kind := sync.ChangeCreate, key := gostr "A" },
         { kind := sync.ChangeUnchanged, key := gostr "B" }]
        [{ change := { kind := sync.ChangeCreate, key := gostr "A" } }]).deleted +
      (sync.ApplyWithCallback false
        [{ kind := sync.ChangeCreate, key := gostr "A" },
         { kind := sync.ChangeUnchanged, key := gostr "B" }]
        [{ change := { kind := sync.ChangeCreate, key := gostr "A" } }]).unchanged +
      (sync.ApplyWithCallback false
        [{ kind := sync.ChangeCreate, key := gostr "A" },
         { kind := sync.ChangeUnchanged, key := gostr "B" }]
        [{ change := { kind := sync.ChangeCreate, key := gostr "A" } }]).skipped +
      (sync.ApplyWithCallback false
        [{ kind := sync.ChangeCreate, key := gostr "A" },
         { kind := sync.ChangeUnchanged, key := gostr "B" }]
        [{ change := { kind := sync.ChangeCreate, key := gostr "A" } }]).failed = 2 :=
  apply_report_counts_total false (fun _ => false) (fun _ => none) (fun _ => none)
    (fun _ => none)
    [{ kind := sync.ChangeCreate, key := gostr "A" },
     { kind := sync.ChangeUnchanged, key := gostr "B" }]
    [{ change := { kind := sync.ChangeCreate, key := gostr "A" } }]
    (by unfold sync.validSchedule; decide)

/-- C5: for every request and retry budget, when the server responds to the
first attempt with HTTP 401, `Client.Do` returns an authentication-failure
error to the caller immediately: exactly one attempt is issued, no backoff
sleep is taken, and the caller receives an error, not a response. -/
theorem transport_401_aborts (respond : Nat → gitlab.Attempt) (retryMax : Nat)
    (h : respond 0 = .resp 401) :
    gitlab.Do respond retryMax = ⟨.error .authFailed, 1, 0⟩ := by
  unfold gitlab.Do
  rw [gitlab.doGo, h]
  simp

/-- Witness for C5: a server that always answers 401, with the default retry
budget 3. -/
theorem transport_401_aborts_witness :
    gitlab.Do (fun _ => .resp 401) 3 = ⟨.error .authFailed, 1, 0⟩ :=
  transport_401_aborts (fun _ => .resp 401) 3 rfl

theorem doGo_ok_status_lt_500 (respond : Nat → gitlab.Attempt) (retryMax : Nat) :
    ∀ (fuel attempt : Nat) (lastErr : Option gitlab.LastErr) (sleeps st atts slp : Nat),
      gitlab.doGo respond retryMax fuel attempt lastErr sleeps =
        ⟨.ok st, atts, slp⟩ → st < 500 := by
  intro fuel
  induction fuel with
  | zero =>
    intro attempt lastErr sleeps st atts slp h
    rw [gitlab.doGo] at h
    simp at h
  | succ f ih =>
    intro attempt lastErr sleeps st atts slp h
    rw [gitlab.doGo] at h
    cases hr : respond attempt with
    | netErr msg =>
      rw [hr] at h
      dsimp only at h
      split at h <;> exact ih _ _ _ _ _ _ h
    | resp status =>
      rw [hr] at h
      dsimp only at h
      by_cases h401 : status = 401
      · rw [if_pos h401] at h
        simp at h
      · rw [if_neg h401] at h
        by_cases h429 : status = 429
        · rw [if_pos h429] at h
          split at h
          · exact ih _ _ _ _ _ _ h
          · simp at h
        · rw [if_neg h429] at h
          by_cases h5 : 500 ≤ status
          · rw [if_pos h5] at h
            split at h
            · exact ih _ _ _ _ _ _ h
            · simp at h
          · rw [if_neg h5] at h
            simp only [gitlab.DoResult.mk.injEq] at h
            obtain ⟨h1, -, -⟩ := h
            cases h1
            omega

theorem doGo_all_server (respond : Nat → gitlab.Attempt) (status : Nat → Nat)
    (retryMax : Nat)
    (hstat : ∀ n, n ≤ retryMax → respond n = .resp (status n) ∧ 500 ≤ status n) :
    ∀ (fuel attempt : Nat) (lastErr : Option gitlab.LastErr) (sleeps : Nat),
      fuel + attempt = retryMax + 1 → attempt ≤ retryMax →
      gitlab.doGo respond retryMax fuel attempt lastErr sleeps =
        ⟨.error (.serverError (status retryMax) (retryMax + 1)), retryMax + 1,
          sleeps + (retryMax - attempt)⟩ := by
  intro fuel
  induction fuel with
  | zero =>
    intro attempt lastErr sleeps hfa hle
    omega
  | succ f ih =>
    intro attempt lastErr sleeps hfa hle
    obtain ⟨hresp, h5⟩ := hstat attempt hle
    rw [gitlab.doGo, hresp]
    dsimp only
    rw [if_neg (by omega), if_neg (by omega), if_pos h5]
    by_cases hlt : attempt < retryMax
    · rw [if_pos hlt]
      have := ih (attempt + 1) (some (.server (status attempt))) (sleeps + 1)
        (by omega) (by omega)
      rw [this]
      have harith : sleeps + 1 + (retryMax - (attempt + 1)) = sleeps + (retryMax - attempt) := by
        omega
      rw [harith]
    · rw [if_neg hlt]
      have hatt : attempt = retryMax := by omega
      subst hatt
      have harith : sleeps + (attempt - attempt) = sleeps := by omega
      rw [harith]

/-- C6: for every request, (1) when the server answers every attempt with a
status ≥ 500, `Client.Do` records the server error, sleeps and retries until
the budget `retryMax` is exhausted and then returns a ServerError to the
caller — `retryMax + 1` attempts and `retryMax` backoff sleeps; and (2) a
response with status ≥ 500 is never handed back to the caller as a success. -/
theorem transport_5xx_retries_then_server_error :
    (∀ (respond : Nat → gitlab.Attempt) (status : Nat → Nat) (retryMax : Nat),
      (∀ n, n ≤ retryMax → respond n = .resp (status n) ∧ 500 ≤ status n) →
      gitlab.Do respond retryMax =
        ⟨.error (.serverError (status retryMax) (retryMax + 1)), retryMax + 1, retryMax⟩) ∧
    (∀ (respond : Nat → gitlab.Attempt) (retryMax st atts slp : Nat),
      gitlab.Do respond retryMax = ⟨.ok st, atts, slp⟩ → st < 500) := by
  constructor
  · intro respond status retryMax hstat
    unfold gitlab.Do
    have := doGo_all_server respond status retryMax hstat (retryMax + 1) 0 none 0
      (by omega) (by omega)
    simpa using this
  · intro respond retryMax st atts slp h
    exact doGo_ok_status_lt_500 respond retryMax (retryMax + 1) 0 none 0 st atts slp h

/-- Witness for C6: a server that always answers 503 with retry budget 2 —
three attempts, two sleeps, a ServerError result. -/
theorem transport_5xx_retries_then_server_error_witness :
    gitlab.Do (fun _ => .resp 503) 2 = ⟨.error (.serverError 503 3), 3, 2⟩ :=
  transport_5xx_retries_then_server_error.1 (fun _ => .resp 503) (fun _ => 503) 2
    (fun _ _ => ⟨rfl, by norm_num⟩)

theorem wrap64_eq_self (x : Int) (h1 : -(2 ^ 63) ≤ x) (h2 : x < 2 ^ 63) :
    gitlab.wrap64 x = x := by
  unfold gitlab.wrap64
  have hp : (2:Int) ^ 63 = 9223372036854775808 := by norm_num
  have hq : (2:Int) ^ 64 = 18446744073709551616 := by norm_num
  rw [hp, hq] at *
  rw [Int.emod_eq_of_lt (by omega) (by omega)]
  omega

theorem wrap64_id_of_bounds (x : Int) (h1 : 0 ≤ x) (h2 : x ≤ 9223372036854775807) :
    gitlab.wrap64 x = x := by
  unfold gitlab.wrap64
  have hp : (2:Int) ^ 63 = 9223372036854775808 := by norm_num
  have hq : (2:Int) ^ 64 = 18446744073709551616 := by norm_num
  rw [hp, hq]
  rw [Int.emod_eq_of_lt (by omega) (by omega)]
  omega

theorem backoff_le_maxBackoff (base : Int) (attempt : Nat) (jitter extra : Int)
    (hj0 : 0 ≤ jitter) (hjb : jitter < gitlab.jitterBound) :
    gitlab.backoff base attempt jitter extra ≤ gitlab.maxBackoff := by
  have hjbv : gitlab.jitterBound = 500000000 := by norm_num [gitlab.jitterBound]
  have hmb : gitlab.maxBackoff = 300000000000 := by norm_num [gitlab.maxBackoff]
  rw [hjbv] at hjb
  unfold gitlab.backoff
  dsimp only
  rw [hmb]
  set d0 := gitlab.wrap64 ((if base > (300000000000:Int) then (300000000000:Int) else base) *
    2 ^ (if attempt > 30 then 30 else attempt) + extra) with hd0
  by_cases hd : d0 > (300000000000:Int) ∨ d0 < 0
  · rw [if_pos hd, wrap64_id_of_bounds _ (by omega) (by omega)]
    split
    · omega
    · next hng => omega
  · rw [if_neg hd]
    push_neg at hd
    rw [wrap64_id_of_bounds _ (by omega) (by omega)]
    split
    · omega
    · next hng => omega

theorem backoff_eq_min (base : Int) (attempt : Nat) (jitter extra : Int)
    (hb : 0 < base) (he : 0 ≤ extra) (hj0 : 0 ≤ jitter) (hjb : jitter < gitlab.jitterBound)
    (hov : base * 2 ^ min attempt 30 + extra + jitter ≤ gitlab.int64Max) :
    gitlab.backoff base attempt jitter extra =
      min gitlab.maxBackoff (base * 2 ^ min attempt 30 + jitter + extra) := by
  have hjbv : gitlab.jitterBound = 500000000 := by norm_num [gitlab.jitterBound]
  have hmb : gitlab.maxBackoff = 300000000000 := by norm_num [gitlab.maxBackoff]
  have hi64v : gitlab.int64Max = 9223372036854775807 := by norm_num [gitlab.int64Max]
  rw [hjbv] at hjb
  rw [hi64v] at hov
  unfold gitlab.backoff
  dsimp only
  have hatt : (if attempt > 30 then 30 else attempt) = min attempt 30 := by
    split <;> omega
  rw [hatt, hmb]
  set E := (2:Int) ^ min attempt 30 with hE
  have hEpos : (0:Int) < E := pow_pos (by norm_num) _
  have hE1 : (1:Int) ≤ E := hEpos
  have hbE : 0 < base * E := mul_pos hb hEpos
  by_cases hbm : base > (300000000000:Int)
  · rw [if_pos hbm]
    have hmle : (300000000000:Int) * E ≤ base * E :=
      mul_le_mul_of_nonneg_right hbm.le hEpos.le
    have hmEnn : (0:Int) ≤ 300000000000 * E := by positivity
    rw [wrap64_id_of_bounds ((300000000000:Int) * E + extra) (by linarith) (by linarith)]
    have hge : (300000000000:Int) ≤ 300000000000 * E + extra := by nlinarith [hE1]
    have hrhs : (300000000000:Int) ≤ base * E + jitter + extra := by nlinarith [hE1]
    by_cases hgt : (300000000000:Int) * E + extra > 300000000000
    · rw [if_pos (Or.inl hgt)]
      rw [wrap64_id_of_bounds ((300000000000:Int) + jitter) (by omega) (by omega)]
      rw [min_eq_left hrhs]
      split
      · rfl
      · next hng => omega
    · have hcond : ¬((300000000000:Int) * E + extra > 300000000000 ∨
          (300000000000:Int) * E + extra < 0) := by
        push_neg
        exact ⟨not_lt.mp hgt, by linarith⟩
      rw [if_neg hcond]
      have hd0eq : (300000000000:Int) * E + extra = 300000000000 :=
        le_antisymm (not_lt.mp hgt) hge
      rw [hd0eq]
      rw [wrap64_id_of_bounds ((300000000000:Int) + jitter) (by omega) (by omega)]
      rw [min_eq_left hrhs]
      split
      · rfl
      · next hng => omega
  · rw [if_neg hbm]
    push_neg at hbm
    rw [wrap64_id_of_bounds (base * E + extra) (by linarith) (by linarith)]
    by_cases hgt : base * E + extra > (300000000000:Int)
    · rw [if_pos (Or.inl hgt)]
      rw [wrap64_id_of_bounds ((300000000000:Int) + jitter) (by omega) (by omega)]
      have hrhs : (300000000000:Int) ≤ base * E + jitter + extra := by linarith
      rw [min_eq_left hrhs]
      split
      · rfl
      · next hng => omega
    · have hcond : ¬(base * E + extra > (300000000000:Int) ∨ base * E + extra < 0) := by
        push_neg
        exact ⟨not_lt.mp hgt, by linarith⟩
      rw [if_neg hcond]
      rw [wrap64_id_of_bounds (base * E + extra + jitter) (by linarith) (by linarith)]
      have hcomm : base * E + jitter + extra = base * E + extra + jitter := by ring
      rw [hcomm]
      split
      · next hg =>
        rw [min_eq_left (by linarith)]
      · next hg =>
        rw [min_eq_right (by linarith)]


/-- C7: for every attempt number, every caller-supplied extra duration and
every jitter in `[0, 500ms)`, the retry backoff is at most 5 minutes; and
(for any initial backoff and inputs whose exact value fits in an int64, so
that no wrap-around occurs) it equals
`min(maxBackoff, initialBackoff · 2^(min attempt 30) + jitter + extra)` —
the attempt is clamped to 30 before the shift, so no attempt value causes
shift overflow. -/
theorem backoff_min_formula (base : Int) (attempt : Nat) (jitter extra : Int) :
    (0 ≤ jitter → jitter < gitlab.jitterBound →
      gitlab.backoff base attempt jitter extra ≤ gitlab.maxBackoff) ∧
    (0 < base → 0 ≤ extra → 0 ≤ jitter → jitter < gitlab.jitterBound →
      base * 2 ^ min attempt 30 + extra + jitter ≤ gitlab.int64Max →
      gitlab.backoff base attempt jitter extra =
        min gitlab.maxBackoff (base * 2 ^ min attempt 30 + jitter + extra)) :=
  ⟨fun hj0 hjb => backoff_le_maxBackoff base attempt jitter extra hj0 hjb,
   fun hb he hj0 hjb hov => backoff_eq_min base attempt jitter extra hb he hj0 hjb hov⟩

/-- Witness for C7: the default 1s initial backoff at attempt 3 with zero
jitter and extra gives 8s, and at attempt 62 (clamped to 30) the result is
capped at 5 minutes. -/
theorem backoff_min_formula_witness :
    gitlab.backoff 1000000000 3 0 0 ≤ gitlab.maxBackoff ∧
    gitlab.backoff 1000000000 3 0 0 =
      min gitlab.maxBackoff (1000000000 * 2 ^ min 3 30 + 0 + 0) :=
  ⟨(backoff_min_formula 1000000000 3 0 0).1 (by norm_num) (by norm_num [gitlab.jitterBound]),
   (backoff_min_formula 1000000000 3 0 0).2 (by norm_num) (by norm_num) (by norm_num)
     (by norm_num [gitlab.jitterBound]) (by norm_num [gitlab.int64Max])⟩

namespace envfile

theorem filter_key_of_nodup {acc : List Variable}
    (hnd : (acc.map fun w => w.key).Nodup) {w : Variable} (hw : w ∈ acc) :
    acc.filter (fun x => x.key == w.key) = [w] := by
  induction acc with
  | nil => cases hw
  | cons a t ih =>
    rw [List.map_cons, List.nodup_cons] at hnd
    rcases List.mem_cons.mp hw with rfl | hwt
    · rw [List.filter_cons]
      simp only [beq_self_eq_true, if_true]
      congr 1
      rw [List.filter_eq_nil_iff]
      intro x hx hbx
      exact hnd.1 (List.mem_map.mpr ⟨x, hx, beq_iff_eq.mp hbx⟩)
    · rw [List.filter_cons]
      have hne : (a.key == w.key) = false := by
        have hwk : w.key ∈ t.map fun x => x.key := List.mem_map.mpr ⟨w, hwt, rfl⟩
        by_cases h : a.key = w.key
        · exact absurd (h ▸ hwk) hnd.1
        · simpa using h
      rw [hne]
      simp only [Bool.false_eq_true, if_false]
      exact ih hnd.2 hwt

theorem dedup_set_facts {v : Variable} :
    ∀ {acc : List Variable} {idx : Nat},
      (acc.map fun w => w.key).Nodup →
      acc.findIdx? (fun w => w.key == v.key) = some idx →
      (acc.set idx v).filter (fun x => x.key == v.key) = [v] ∧
      (∀ k, k ≠ v.key → (acc.set idx v).filter (fun x => x.key == k) =
        acc.filter (fun x => x.key == k)) ∧
      (acc.set idx v).map (fun w => w.key) = acc.map (fun w => w.key) ∧
      v.key ∈ acc.map (fun w => w.key) := by
  intro acc
  induction acc with
  | nil => intro idx _ hidx; simp at hidx
  | cons a t ih =>
    intro idx hnd hidx
    rw [List.map_cons, List.nodup_cons] at hnd
    rw [List.findIdx?_cons] at hidx
    by_cases hpa : (a.key == v.key) = true
    · rw [if_pos hpa] at hidx
      have hidx0 : idx = 0 := by
        cases hidx
        rfl
      subst hidx0
      have hkey : a.key = v.key := beq_iff_eq.mp hpa
      have hnotin : ∀ x ∈ t, (x.key == v.key) = false := by
        intro x hx
        by_cases h : x.key = v.key
        · exact absurd (List.mem_map.mpr ⟨x, hx, h.trans hkey.symm⟩) hnd.1
        · simpa using h
      refine ⟨?_, ?_, ?_, ?_⟩
      · rw [List.set_cons_zero, List.filter_cons]
        simp only [beq_self_eq_true, if_true]
        congr 1
        rw [List.filter_eq_nil_iff]
        intro x hx hbx
        exact absurd hbx (by simp [hnotin x hx])
      · intro k hk
        rw [List.set_cons_zero, List.filter_cons, List.filter_cons]
        have h1 : (v.key == k) = false := by
          by_cases h : v.key = k
          · exact absurd h.symm hk
          · simpa using h
        have h2 : (a.key == k) = false := by
          rw [hkey]
          exact h1
        rw [h1, h2]
        simp only [Bool.false_eq_true, if_false]
      · rw [List.set_cons_zero, List.map_cons, List.map_cons, hkey]
      · rw [List.map_cons, hkey]
        exact List.mem_cons_self _ _
    · rw [if_neg hpa] at hidx
      rw [List.findIdx?_succ] at hidx
      rcases Option.map_eq_some'.mp hidx with ⟨j, hj, hji⟩
      subst hji
      obtain ⟨h1, h2, h3, h4⟩ := ih hnd.2 hj
      have hane : (a.key == v.key) = false := by simpa using hpa
      refine ⟨?_, ?_, ?_, ?_⟩
      · rw [List.set_cons_succ, List.filter_cons, hane]
        simp only [Bool.false_eq_true, if_false]
        exact h1
      · intro k hk
        rw [List.set_cons_succ, List.filter_cons, List.filter_cons]
        by_cases hak : (a.key == k) = true
        · rw [hak]
          simp only [if_true]
          rw [h2 k hk]
        · have : (a.key == k) = false := by simpa using hak
          rw [this]
          simp only [Bool.false_eq_true, if_false]
          exact h2 k hk
      · rw [List.set_cons_succ, List.map_cons, List.map_cons, h3]
      · rw [List.map_cons]
        exact List.mem_cons_of_mem _ h4

end envfile

namespace envfile

theorem dedupGo_spec :
    ∀ (rest acc : List Variable),
      ((acc.map fun w => w.key)).Nodup →
      ((dedupGo rest acc).map fun w => w.key).Nodup ∧
      (dedupGo rest acc).map (fun w => w.key) =
        acc.map (fun w => w.key) ++
          firstKeysAux (acc.map fun w => w.key) (rest.map fun w => w.key) ∧
      ∀ w ∈ dedupGo rest acc,
        ((acc ++ rest).filter fun x => x.key == w.key).getLast? = some w := by
  intro rest
  induction rest with
  | nil =>
    intro acc hnd
    rw [dedupGo]
    refine ⟨hnd, by simp [firstKeysAux], ?_⟩
    intro w hw
    rw [List.append_nil, filter_key_of_nodup hnd hw]
    rfl
  | cons v rest' ih =>
    intro acc hnd
    rw [dedupGo]
    cases hidx : acc.findIdx? (fun w => w.key == v.key) with
    | none =>
      have hnotin : ∀ x ∈ acc, (x.key == v.key) = false :=
        List.findIdx?_eq_none_iff.mp hidx
      have hvnotin : v.key ∉ acc.map (fun w => w.key) := by
        intro hmem
        rcases List.mem_map.mp hmem with ⟨x, hx, hxk⟩
        have := hnotin x hx
        simp [hxk] at this
      have hnd' : ((acc ++ [v]).map fun w => w.key).Nodup := by
        rw [List.map_append, List.nodup_append]
        refine ⟨hnd, List.nodup_singleton _, ?_⟩
        intro a ha hma
        rw [List.map_singleton, List.mem_singleton] at hma
        exact hvnotin (hma ▸ ha)
      obtain ⟨g1, g2, g3⟩ := ih (acc ++ [v]) hnd'
      refine ⟨g1, ?_, ?_⟩
      · rw [g2, List.map_append, List.map_cons]
        simp only [firstKeysAux]
        rw [if_neg hvnotin]
        simp [List.append_assoc]
      · intro w hw
        have hlast := g3 w hw
        rwa [List.append_assoc, List.singleton_append] at hlast
    | some idx =>
      obtain ⟨h1, h2, h3, h4⟩ := dedup_set_facts hnd hidx
      have hnd' : ((acc.set idx v).map fun w => w.key).Nodup := by
        rw [h3]
        exact hnd
      obtain ⟨g1, g2, g3⟩ := ih (acc.set idx v) hnd'
      refine ⟨g1, ?_, ?_⟩
      · rw [g2, h3, List.map_cons]
        simp only [firstKeysAux]
        rw [if_pos h4]
      · intro w hw
        have hg := g3 w hw
        rw [List.filter_append] at hg ⊢
        by_cases hk : w.key = v.key
        · rw [hk] at hg ⊢
          rw [h1] at hg
          rw [List.filter_cons]
          simp only [beq_self_eq_true, if_true]
          show ((acc.filter fun x => x.key == v.key) ++
            ([v] ++ rest'.filter fun x => x.key == v.key)).getLast? = some w
          rw [List.getLast?_append, hg]
          simp
        · rw [h2 w.key hk] at hg
          rw [List.filter_cons]
          have hvk : (v.key == w.key) = false := by
            by_cases h : v.key = w.key
            · exact absurd h.symm hk
            · simpa using h
          rw [hvk]
          simp only [Bool.false_eq_true, if_false]
          exact hg

end envfile

/-- C9: the parser's deduplication yields at most one entry per key (the
output keys are pairwise distinct and follow the order of first occurrence of
each distinct key), and when a key occurs several times the retained entry is
exactly the last occurrence (its value and line number); consequently every
successful `ParseReader` run returns variables with pairwise-distinct keys. -/
theorem parser_dedup_last_wins_first_position :
    (∀ vs : List envfile.Variable,
      ((envfile.dedupVariables vs).map fun v => v.key).Nodup ∧
      (envfile.dedupVariables vs).map (fun v => v.key) =
        envfile.firstKeys (vs.map fun v => v.key) ∧
      ∀ w ∈ envfile.dedupVariables vs,
        (vs.filter fun v => v.key == w.key).getLast? = some w) ∧
    (∀ (lines : List Str) (res : envfile.ParseResult),
      envfile.ParseReader lines = .ok res →
      (res.variables.map fun v => v.key).Nodup) := by
  constructor
  · intro vs
    obtain ⟨g1, g2, g3⟩ := envfile.dedupGo_spec vs [] (by simp)
    exact ⟨g1, by simpa [envfile.dedupVariables, envfile.firstKeys] using g2,
      fun w hw => by simpa using g3 w hw⟩
  · intro lines res h
    unfold envfile.ParseReader at h
    cases hp : envfile.parseLines lines.length lines 1 with
    | error e =>
      rw [hp] at h
      cases h
    | ok r =>
      rw [hp] at h
      cases h
      obtain ⟨g1, -, -⟩ := envfile.dedupGo_spec r.variables [] (by simp)
      exact g1

/-- Witness for C9: for the stream `A=1, B=2, A=3` the parser returns `A`
(value 3, line 3) first and `B` second, and the deduplicated keys are
distinct. -/
theorem parser_dedup_last_wins_first_position_witness :
    ((envfile.dedupVariables
        [{ key := gostr "A", value := gostr "1", line := 1 },
         { key := gostr "B", value := gostr "2", line := 2 },
         { key := gostr "A", value := gostr "3", line := 3 }]).map fun v => v.key).Nodup ∧
    envfile.ParseReader [gostr "A=1", gostr "B=2", gostr "A=3"] =
      .ok { «variables» := [{ key := gostr "A", value := gostr "3", line := 3 },
                            { key := gostr "B", value := gostr "2", line := 2 }] } :=
  ⟨(parser_dedup_last_wins_first_position.1
      [{ key := gostr "A", value := gostr "1", line := 1 },
       { key := gostr "B", value := gostr "2", line := 2 },
       { key := gostr "A", value := gostr "3", line := 3 }]).1,
   by decide⟩

theorem drop_append_len_succ (k : Str) (c : Char) (rest : Str) :
    (k ++ c :: rest).drop (k.length + 1) = rest := by
  induction k with
  | nil => simp
  | cons a t ih => simp [ih]

/-- C4 counterexample: the unquoted line `K=\${LITERAL}` is skipped with
reason INTERPOLATION by the parser although its value contains no unescaped
`$` `{` (the pair is preceded by one backslash, an odd count) — refuting the
claim that the parser skips with INTERPOLATION only when the value contains
an unescaped `$` `{`. -/
theorem parser_escaped_unquoted_interpolation_counterexample :
    envfile.ParseReader [gostr "K=\\${LITERAL}"] =
      .ok { skipped := [{ line := 1, key := gostr "K",
                          reason := .interpolation }] } ∧
    envfile.containsUnescapedInterpolation (gostr "\\${LITERAL}") = false := by
  constructor
  · decide
  · decide

/-- C4 (amended): the escape-aware interpolation rule applies to
double-quoted values only.  (i) For a double-quoted single-line value the
parser skips with INTERPOLATION exactly when the raw pre-unescape content
contains an unescaped `$` `{`; in particular `K="\${LITERAL}"` is returned
as an entry whose value is the literal `${LITERAL}`.  (ii) For a
single-quoted value and (iii) for an unquoted value beginning with a
backslash, any `$` `{` — even one preceded by an odd number of backslashes —
triggers the INTERPOLATION skip (the plain containment check
`isInterpolation` is used there). -/
theorem parser_interpolation_skip_rules :
    (∀ (k raw : Str),
      k ≠ [] →
      envfile.trimSpace (k ++ '=' :: '"' :: (raw ++ ['"'])) =
        k ++ '=' :: '"' :: (raw ++ ['"']) →
      (gostr "export ").isPrefixOf (k ++ '=' :: '"' :: (raw ++ ['"'])) = false →
      (['#'] : Str).isPrefixOf (k ++ '=' :: '"' :: (raw ++ ['"'])) = false →
      (k ++ '=' :: '"' :: (raw ++ ['"'])).findIdx? (fun c => c == '=') = some k.length →
      envfile.trimRightSpaceTab k = k →
      envfile.findUnescapedQuote (raw ++ ['"']) = some raw.length →
      (envfile.containsUnescapedInterpolation raw = true →
        envfile.ParseReader [k ++ '=' :: '"' :: (raw ++ ['"'])] =
          .ok { skipped := [{ line := 1, key := k, reason := .interpolation }] }) ∧
      (envfile.containsUnescapedInterpolation raw = false →
        envfile.isPlaceholder (envfile.unescapeDoubleQuoted raw) = false →
        envfile.ParseReader [k ++ '=' :: '"' :: (raw ++ ['"'])] =
          .ok { «variables» :=
            [{ key := k, value := envfile.unescapeDoubleQuoted raw, line := 1 }] })) ∧
    (∀ (k inner : Str),
      k ≠ [] →
      envfile.trimSpace (k ++ '=' :: '\'' :: (inner ++ ['\''])) =
        k ++ '=' :: '\'' :: (inner ++ ['\'']) →
      (gostr "export ").isPrefixOf (k ++ '=' :: '\'' :: (inner ++ ['\''])) = false →
      (['#'] : Str).isPrefixOf (k ++ '=' :: '\'' :: (inner ++ ['\''])) = false →
      (k ++ '=' :: '\'' :: (inner ++ ['\''])).findIdx? (fun c => c == '=') = some k.length →
      envfile.trimRightSpaceTab k = k →
      (inner ++ ['\'']).findIdx? (fun c => c == '\'') = some inner.length →
      envfile.isInterpolation inner = true →
      envfile.ParseReader [k ++ '=' :: '\'' :: (inner ++ ['\''])] =
        .ok { skipped := [{ line := 1, key := k, reason := .interpolation }] }) ∧
    (∀ (k v : Str),
      k ≠ [] →
      envfile.trimSpace (k ++ '=' :: '\\' :: v) = k ++ '=' :: '\\' :: v →
      (gostr "export ").isPrefixOf (k ++ '=' :: '\\' :: v) = false →
      (['#'] : Str).isPrefixOf (k ++ '=' :: '\\' :: v) = false →
      (k ++ '=' :: '\\' :: v).findIdx? (fun c => c == '=') = some k.length →
      envfile.trimRightSpaceTab k = k →
      envfile.isInterpolation ('\\' :: v) = true →
      envfile.ParseReader [k ++ '=' :: '\\' :: v] =
        .ok { skipped := [{ line := 1, key := k, reason := .interpolation }] }) := by
  refine ⟨?_, ?_, ?_⟩
  · intro k raw hne htrim hexp hhash heq hkt hq
    have hline : envfile.stripExport (envfile.trimSpace (k ++ '=' :: '"' :: (raw ++ ['"']))) =
        k ++ '=' :: '"' :: (raw ++ ['"']) := by
      rw [htrim]
      unfold envfile.stripExport
      rw [hexp]
      simp
    constructor
    · intro hint
      unfold envfile.ParseReader
      simp only [List.length_cons, List.length_nil]
      rw [envfile.parseLines]
      simp only [hline, hhash, heq, hkt, List.take_left, drop_append_len_succ, hq, hint,
        List.append_eq_nil, Bool.false_eq_true, if_false, reduceCtorEq, false_and, and_false]
      simp [hne, envfile.parseLines, Except.map, envfile.consSkip, envfile.dedupVariables,
        envfile.dedupGo]
    · intro hint hpl
      unfold envfile.ParseReader
      simp only [List.length_cons, List.length_nil]
      rw [envfile.parseLines]
      simp only [hline, hhash, heq, hkt, List.take_left, drop_append_len_succ, hq, hint,
        List.append_eq_nil, Bool.false_eq_true, if_false, reduceCtorEq, false_and, and_false]
      simp [hne, envfile.parseLines, envfile.finishEntry, hpl, Except.map, envfile.consVar,
        envfile.dedupVariables, envfile.dedupGo]
  · intro k inner hne htrim hexp hhash heq hkt hqs hint
    have hline : envfile.stripExport (envfile.trimSpace (k ++ '=' :: '\'' :: (inner ++ ['\'']))) =
        k ++ '=' :: '\'' :: (inner ++ ['\'']) := by
      rw [htrim]
      unfold envfile.stripExport
      rw [hexp]
      simp
    unfold envfile.ParseReader
    simp only [List.length_cons, List.length_nil]
    rw [envfile.parseLines]
    simp only [hline, hhash, heq, hkt, List.take_left, drop_append_len_succ, hqs,
      List.append_eq_nil, Bool.false_eq_true, if_false, reduceCtorEq, false_and, and_false]
    simp [hne, envfile.parseLines, envfile.finishEntry, hint, Except.map, envfile.consSkip,
      envfile.dedupVariables, envfile.dedupGo]
  · intro k v hne htrim hexp hhash heq hkt hint
    have hline : envfile.stripExport (envfile.trimSpace (k ++ '=' :: '\\' :: v)) =
        k ++ '=' :: '\\' :: v := by
      rw [htrim]
      unfold envfile.stripExport
      rw [hexp]
      simp
    unfold envfile.ParseReader
    simp only [List.length_cons, List.length_nil]
    rw [envfile.parseLines]
    simp only [hline, hhash, heq, hkt, List.take_left, drop_append_len_succ,
      List.append_eq_nil, Bool.false_eq_true, if_false, reduceCtorEq, false_and, and_false]
    simp [hne, envfile.parseLines, envfile.finishEntry, hint, Except.map, envfile.consSkip,
      envfile.dedupVariables, envfile.dedupGo]

/-- Witness for the amended C4: the double-quoted line `K="\${LITERAL}"` is
not skipped and parses to the literal value `${LITERAL}` (the hypotheses of
the amended theorem hold at this concrete input). -/
theorem parser_interpolation_skip_rules_witness :
    envfile.ParseReader [gostr "K" ++ '=' :: '"' :: (gostr "\\${LITERAL}" ++ ['"'])] =
      .ok { «variables» := [{ key := gostr "K",
                              value := envfile.unescapeDoubleQuoted (gostr "\\${LITERAL}"),
                              line := 1 }] } :=
  (parser_interpolation_skip_rules.1 (gostr "K") (gostr "\\${LITERAL}")
    (by decide) (by decide) (by decide) (by decide) (by decide) (by decide)
    (by decide)).2 (by decide) (by decide)
